import Mathlib

/-!
Verification of the schema-driven AST traversal and mutation engine of the
repository (the NodePath / traverse iteration in src/unnamed/part_006, with
the schema registry astDefinitionsMap from mini-babel/src/utils.js).

The embedding models JavaScript objects as JVal trees, the visitor map as an
association list from type tags to hook functions, and the engine as a
fuel-indexed interpreter. Hooks are pure functions from the path view to a
mutation command (do nothing, replaceWith, or remove), which is exactly the
interface the source exposes to visitors: a hook may call path.replaceWith
or path.remove on its own path, and nothing else mutates the tree.

JavaScript aliasing is modelled precisely where the source depends on it:
during the iteration of one sequence field, the engine keeps both the array
object being iterated (spliced in place by child commands) and the current
value of the parent field, which the unconditional trailing assignment in
replaceWith and remove detaches from that array.
-/

/-- A JavaScript value as the engine sees it: null, a number or string
payload, an array, or a node object with a type tag and named fields. -/
inductive JVal where
  | vnull : JVal
  | vnum (n : Int) : JVal
  | vstr (s : String) : JVal
  | varr (elems : List JVal) : JVal
  | vnode (ty : String) (fields : List (String × JVal)) : JVal

mutual

/-- Decidable equality on JVal, written by hand because the nested lists
defeat the deriving handler. -/
def JVal.decEq : (a b : JVal) → Decidable (a = b)
  | .vnull, .vnull => .isTrue rfl
  | .vnum a, .vnum b =>
    if h : a = b then .isTrue (by rw [h])
    else .isFalse fun hh => h (by injection hh)
  | .vstr a, .vstr b =>
    if h : a = b then .isTrue (by rw [h])
    else .isFalse fun hh => h (by injection hh)
  | .varr xs, .varr ys =>
    match JVal.decEqList xs ys with
    | .isTrue h => .isTrue (by rw [h])
    | .isFalse h => .isFalse fun hh => h (by injection hh)
  | .vnode t fs, .vnode u gs =>
    if ht : t = u then
      match JVal.decEqFields fs gs with
      | .isTrue h => .isTrue (by rw [ht, h])
      | .isFalse h => .isFalse fun hh => h (by injection hh with h1 h2)
    else .isFalse fun hh => ht (by injection hh with h1 h2)
  | .vnull, .vnum _ | .vnull, .vstr _ | .vnull, .varr _ | .vnull, .vnode _ _ =>
    .isFalse fun h => nomatch h
  | .vnum _, .vnull | .vnum _, .vstr _ | .vnum _, .varr _ | .vnum _, .vnode _ _ =>
    .isFalse fun h => nomatch h
  | .vstr _, .vnull | .vstr _, .vnum _ | .vstr _, .varr _ | .vstr _, .vnode _ _ =>
    .isFalse fun h => nomatch h
  | .varr _, .vnull | .varr _, .vnum _ | .varr _, .vstr _ | .varr _, .vnode _ _ =>
    .isFalse fun h => nomatch h
  | .vnode _ _, .vnull | .vnode _ _, .vnum _ | .vnode _ _, .vstr _ | .vnode _ _, .varr _ =>
    .isFalse fun h => nomatch h

/-- Decidable equality on lists of JVal. -/
def JVal.decEqList : (a b : List JVal) → Decidable (a = b)
  | [], [] => .isTrue rfl
  | x :: xs, y :: ys =>
    match JVal.decEq x y with
    | .isTrue h1 =>
      match JVal.decEqList xs ys with
      | .isTrue h2 => .isTrue (by rw [h1, h2])
      | .isFalse h2 => .isFalse fun hh => h2 (by injection hh with ha hb)
    | .isFalse h1 => .isFalse fun hh => h1 (by injection hh with ha hb)
  | [], _ :: _ => .isFalse fun h => nomatch h
  | _ :: _, [] => .isFalse fun h => nomatch h

/-- Decidable equality on field lists. -/
def JVal.decEqFields : (a b : List (String × JVal)) → Decidable (a = b)
  | [], [] => .isTrue rfl
  | (k, v) :: xs, (l, w) :: ys =>
    if hk : k = l then
      match JVal.decEq v w with
      | .isTrue h1 =>
        match JVal.decEqFields xs ys with
        | .isTrue h2 => .isTrue (by rw [hk, h1, h2])
        | .isFalse h2 => .isFalse fun hh => h2 (by injection hh with ha hb)
      | .isFalse h1 =>
        .isFalse fun hh => by
          injection hh with hhead htail
          injection hhead with hfst hsnd
          exact h1 hsnd
    else
      .isFalse fun hh => by
        injection hh with hhead htail
        injection hhead with hfst hsnd
        exact hk hfst
  | [], _ :: _ => .isFalse fun h => nomatch h
  | _ :: _, [] => .isFalse fun h => nomatch h

end

instance : DecidableEq JVal := JVal.decEq

/-- One entry of the schema registry: the ordered list of child-bearing
field names, absent when the source object literal has no visitor key
(for example Identifier and NumericLiteral in utils.js). -/
structure SchemaEntry where
  visitor : Option (List String)
deriving DecidableEq

/-- The schema registry: a map from node type tag to its entry, as built by
new Map(Object.entries(...)) in mini-babel/src/utils.js. -/
abbrev Defs := List (String × SchemaEntry)

/-- The concrete registry of mini-babel/src/utils.js lines 1 to 13. -/
def astDefinitionsMap : Defs :=
  [("Program", ⟨some ["body"]⟩),
   ("VariableDeclaration", ⟨some ["declarations"]⟩),
   ("VariableDeclarator", ⟨some ["id", "init"]⟩),
   ("Identifier", ⟨none⟩),
   ("NumericLiteral", ⟨none⟩)]

/-- The view of a NodePath that a hook can read: the node, the field name
under the parent, and the array index when the field holds a sequence.
The parent and parentPath references of the source are engine-internal
here: mutation goes through the command returned by the hook. -/
structure PathInfo where
  node : JVal
  key : Option String
  listKey : Option Nat

/-- What a hook did to its own path: nothing, path.replaceWith(m), or
path.remove(). -/
inductive Cmd where
  | cnone : Cmd
  | creplaceWith (m : JVal) : Cmd
  | cremove : Cmd

/-- One entry of the visitor map: either a bare function (interpreted as
enter only, part_006 lines 34 to 38) or an object with optional enter and
exit members. -/
inductive VisitorEntry where
  | vfun (f : PathInfo → Cmd) : VisitorEntry
  | vobj (onEnter : Option (PathInfo → Cmd)) (onExit : Option (PathInfo → Cmd)) : VisitorEntry

/-- The visitor map supplied to traverse. -/
abbrev Visitors := List (String × VisitorEntry)

/-- The enter hook of a visitor entry, after the function shorthand
normalisation of part_006 lines 34 to 38. -/
def VisitorEntry.enterHook : VisitorEntry → Option (PathInfo → Cmd)
  | .vfun f => some f
  | .vobj e _ => e

/-- The exit hook of a visitor entry; a bare function has none. -/
def VisitorEntry.exitHook : VisitorEntry → Option (PathInfo → Cmd)
  | .vfun _ => none
  | .vobj _ x => x

/-- Events recorded by the embedding, in source order: enterEv and exitEv
mark the activation phases of part_006 lines 41 and 55 for the type tag the
activation resolved, enterHookEv and exitHookEv record an actual hook call
together with the node the path referenced at that moment. -/
inductive Ev where
  | enterEv (ty : String) : Ev
  | exitEv (ty : String) : Ev
  | enterHookEv (ty : String) (obs : JVal) : Ev
  | exitHookEv (ty : String) (obs : JVal) : Ev
deriving DecidableEq

/-- Runtime failures of the source, by crash site. The source defines no
named error classes; every constructor below is a TypeError the JavaScript
engine would raise at the indicated line of part_006. -/
inductive JErr where
  /-- Reading definition.visitor at line 43 when the schema lookup at line
  30 returned undefined: the condition the specification names
  UnknownNodeType. The payload is the type tag that missed, none when the
  traversed value had no type property at all. -/
  | noDefinition (tag : Option String) : JErr
  /-- Reading node.type at line 30 when the traversed value is null or
  undefined (a singular child slot holding null, or an absent field). -/
  | typeOfNullRead : JErr
  /-- Accessing this.parent[this.key] in replaceWith or remove when the
  path has no parent (the root path). -/
  | memberOfUndefinedParent : JErr
  /-- Calling splice on parent[key] when that field no longer holds an
  array (null after remove, or a plain node after replaceWith). -/
  | spliceOnNonArray : JErr
  /-- Modelling artifact: the fuel of the interpreter ran out. -/
  | fuelExhausted : JErr
  /-- Modelling artifact: a child activation returned a slot of the wrong
  shape; unreachable because every slot operation preserves the shape. -/
  | slotShapeLost : JErr
deriving DecidableEq

/-- State of parent[key] while the engine iterates a sequence field:
either still the array object being iterated (att) or detached, after the
unconditional trailing assignment of replaceWith or remove rebound the
field to some other value (det v). -/
inductive FSt where
  | att : FSt
  | det (v : JVal) : FSt
deriving DecidableEq

/-- The slot a traversed node occupies, as the mutation methods see it.
root: no parent (mutation dereferences undefined). single fv: a singular
field; none means the field still references this very child object, some
v means a command rebound it to v. elem k arr fs inArr: element k of a
sequence field, where arr is the array object the enclosing forEach
iterates, fs the current binding of the parent field, and inArr whether
position k of arr still holds this child object. -/
inductive Slot where
  | root : Slot
  | single (fv : Option JVal) : Slot
  | elem (k : Nat) (arr : List JVal) (fs : FSt) (inArr : Bool) : Slot
deriving DecidableEq

/-- JavaScript arr.splice(k, 1, m) on a dense array: the start index is
clamped to the length, one element (if any) from there is dropped and m is
inserted in its place; with k at or past the end this appends m. -/
def spliceReplace1 (k : Nat) (arr : List JVal) (m : JVal) : List JVal :=
  arr.take k ++ [m] ++ arr.drop (k + 1)

/-- JavaScript arr.splice(k, 1) on a dense array: drops the element at k
when there is one, otherwise leaves the array unchanged. -/
def spliceRemove1 (k : Nat) (arr : List JVal) : List JVal :=
  arr.take k ++ arr.drop (k + 1)

namespace NodePath

/-- Effect of path.replaceWith(node), part_006 lines 15 to 20, on the slot
state. The source splices only when this.listKey is truthy (so never at
index 0, where the JavaScript number 0 is falsy, and never on a singular
field) and then always runs this.parent[this.key] = node, detaching the
iterated array and rebinding the whole field to the new node. On the root
path the member access on the undefined parent throws. -/
def replaceWith (slot : Slot) (m : JVal) : Except JErr Slot :=
  match slot with
  | .root => .error .memberOfUndefinedParent
  | .single _ => .ok (.single (some m))
  | .elem k arr fs inArr =>
    if k ≠ 0 then
      match fs with
      | .att => .ok (.elem k (spliceReplace1 k arr m) (.det m) false)
      | .det (.varr _) => .ok (.elem k arr (.det m) inArr)
      | .det _ => .error .spliceOnNonArray
    else .ok (.elem k arr (.det m) inArr)

/-- Effect of path.remove(), part_006 lines 21 to 26, on the slot state.
Splices only when this.listKey is truthy, then always assigns null into
the parent field. -/
def remove (slot : Slot) : Except JErr Slot :=
  match slot with
  | .root => .error .memberOfUndefinedParent
  | .single _ => .ok (.single (some .vnull))
  | .elem k arr fs inArr =>
    if k ≠ 0 then
      match fs with
      | .att => .ok (.elem k (spliceRemove1 k arr) (.det .vnull) false)
      | .det (.varr _) => .ok (.elem k arr (.det .vnull) inArr)
      | .det _ => .error .spliceOnNonArray
    else .ok (.elem k arr (.det .vnull) inArr)

end NodePath

/-- Apply the command a hook returned to the slot of its path. -/
def applySlot (slot : Slot) : Cmd → Except JErr Slot
  | .cnone => .ok slot
  | .creplaceWith m => NodePath.replaceWith slot m
  | .cremove => NodePath.remove slot

/-- In-place update of the child object as seen from its slot: descendants
of the child mutate the very object the parent container references, so
when position k of the iterated array (or the singular field) still holds
this child, it now holds the updated value. -/
def foldChild (slot : Slot) (c : JVal) : Slot :=
  match slot with
  | .root => .root
  | .single fv => .single fv
  | .elem k arr fs inArr => if inArr then .elem k (arr.set k c) fs inArr else .elem k arr fs inArr

/-- Reading node.type, part_006 line 30: throws on null or undefined,
yields the tag on a node object, and yields undefined (none) on numbers,
strings and arrays. -/
def getTypeTag : JVal → Except JErr (Option String)
  | .vnull => .error .typeOfNullRead
  | .vnode ty _ => .ok (some ty)
  | _ => .ok none

/-- The visitors[node.type] lookup of part_006 line 32; an undefined tag
finds nothing. -/
def lookupVisitor (vis : Visitors) : Option String → Option VisitorEntry
  | some ty => vis.lookup ty
  | none => none

/-- JavaScript assignment node[key] = v on an existing key of an object,
as an association list update. -/
def setField (fields : List (String × JVal)) (key : String) (v : JVal) : List (String × JVal) :=
  fields.map fun kv => if kv.1 = key then (kv.1, v) else kv

/-- Run one optional hook: record the call with the node the path shows,
and apply the returned command to the slot. -/
def runHook (ty : String) (enterPhase : Bool) (hook : Option (PathInfo → Cmd))
    (p : PathInfo) (slot : Slot) : List Ev × Except JErr Slot :=
  match hook with
  | none => ([], .ok slot)
  | some f =>
    ((if enterPhase then [Ev.enterHookEv ty p.node] else [Ev.exitHookEv ty p.node]),
     applySlot slot (f p))

/-- The three activities of the engine: one traverse activation, the
forEach over the visitor field list of a schema entry, and the forEach
over one sequence field. -/
inductive TravTask where
  | tnode (node : JVal) (key : Option String) (slot : Slot) : TravTask
  | tfields (keys : List String) (node : JVal) : TravTask
  | tarr (key : String) (k : Nat) (arr : List JVal) (fs : FSt) : TravTask

/-- One step of the engine, with rec standing for the recursive call. This
is the body of function traverse of part_006 lines 29 to 56, split by
task. tnode follows the source line by line: resolve the schema entry
(line 30, no failure yet), normalise the visitor entry (lines 32 to 38),
build the path (line 39), run the enter hook (line 41), then read
definition.visitor (line 43), which throws when the schema lookup missed;
descend per field (lines 44 to 53); run the exit hook (line 55). There is
no check of whether a hook removed or replaced the node: the engine always
descends into the original node object read at line 45 and always runs the
exit hook. tfields reads node[key] once per field; a sequence field is
iterated by tarr, which mirrors Array.prototype.forEach over the spliced
array: the callback for index k receives the current element at k, and
iteration stops as soon as k reaches the current length. -/
def goStep (defs : Defs) (vis : Visitors)
    (rec : TravTask → List Ev × Except JErr (JVal × Slot)) :
    TravTask → List Ev × Except JErr (JVal × Slot)
  | .tnode node key slot =>
    match getTypeTag node with
    | .error e => ([], .error e)
    | .ok tag =>
      let deff : Option SchemaEntry := match tag with
        | some ty => defs.lookup ty
        | none => none
      let ventry := lookupVisitor vis tag
      let tyStr := tag.getD "undefined"
      let listKey : Option Nat := match slot with
        | .elem k _ _ _ => some k
        | _ => none
      let p : PathInfo := ⟨node, key, listKey⟩
      match runHook tyStr true (ventry.bind VisitorEntry.enterHook) p slot with
      | (evE, .error e) => (Ev.enterEv tyStr :: evE, .error e)
      | (evE, .ok slot1) =>
        match deff with
        | none => (Ev.enterEv tyStr :: evE, .error (.noDefinition tag))
        | some entry =>
          match (match entry.visitor with
                 | none => ([], .ok (node, Slot.root))
                 | some keys => rec (.tfields keys node) :
                 List Ev × Except JErr (JVal × Slot)) with
          | (trD, .error e) => (Ev.enterEv tyStr :: (evE ++ trD), .error e)
          | (trD, .ok (c, _)) =>
            let slot2 := foldChild slot1 c
            let p2 : PathInfo := ⟨c, key, listKey⟩
            match runHook tyStr false (ventry.bind VisitorEntry.exitHook) p2 slot2 with
            | (evX, .error e) => (Ev.enterEv tyStr :: (evE ++ trD ++ evX), .error e)
            | (evX, .ok slot3) =>
              (Ev.enterEv tyStr :: (evE ++ trD ++ evX ++ [Ev.exitEv tyStr]),
               .ok (c, slot3))
  | .tfields [] node => ([], .ok (node, Slot.root))
  | .tfields (key :: rest) node =>
    match node with
    | .vnode ty fields =>
      match fields.lookup key with
      | none => ([], .error .typeOfNullRead)
      | some (.varr arr) =>
        match rec (.tarr key 0 arr .att) with
        | (tr1, .error e) => (tr1, .error e)
        | (tr1, .ok (fv, _)) =>
          match rec (.tfields rest (.vnode ty (setField fields key fv))) with
          | (tr2, res) => (tr1 ++ tr2, res)
      | some prop =>
        match rec (.tnode prop (some key) (.single none)) with
        | (tr1, .error e) => (tr1, .error e)
        | (tr1, .ok (c, slot1)) =>
          let fv := match slot1 with
            | .single (some v) => v
            | _ => c
          match rec (.tfields rest (.vnode ty (setField fields key fv))) with
          | (tr2, res) => (tr1 ++ tr2, res)
    | _ => ([], .error .typeOfNullRead)
  | .tarr key k arr fs =>
    if h : k < arr.length then
      match rec (.tnode (arr.get ⟨k, h⟩) (some key) (.elem k arr fs true)) with
      | (tr1, .error e) => (tr1, .error e)
      | (tr1, .ok (_, .elem _ arr1 fs1 _)) =>
        match rec (.tarr key (k + 1) arr1 fs1) with
        | (tr2, res) => (tr1 ++ tr2, res)
      | (tr1, .ok _) => (tr1, .error .slotShapeLost)
    else
      match fs with
      | .att => ([], .ok (.varr arr, Slot.root))
      | .det v => ([], .ok (v, Slot.root))

/-- The fuel-indexed engine. Fuel decreases on every recursive call, so
evaluation is structural and any finite run is reached with enough fuel. -/
def go (defs : Defs) (vis : Visitors) : Nat → TravTask → List Ev × Except JErr (JVal × Slot)
  | 0, _ => ([], .error .fuelExhausted)
  | fuel + 1, task => goStep defs vis (go defs vis fuel) task

/-- One traverse activation on a node in a given slot, the embedding of
function traverse of part_006. -/
def traverse (defs : Defs) (vis : Visitors) (fuel : Nat) (node : JVal)
    (key : Option String) (slot : Slot) : List Ev × Except JErr (JVal × Slot) :=
  go defs vis fuel (.tnode node key slot)

/-- The top-level call traverse(ast, visitors) of part_006 line 62: the
root activation has no parent, no key and no listKey. Returns the events
up to completion or failure and either the final tree or the error that
aborted the walk. -/
def runTraverse (defs : Defs) (vis : Visitors) (fuel : Nat) (ast : JVal) :
    List Ev × Except JErr JVal :=
  match go defs vis fuel (.tnode ast none .root) with
  | (tr, .error e) => (tr, .error e)
  | (tr, .ok (c, _)) => (tr, .ok c)

/-- Field read on a node value. -/
def getField (v : JVal) (key : String) : Option JVal :=
  match v with
  | .vnode _ fields => fields.lookup key
  | _ => none

/-- Number of engine enter phases for a given type tag in a trace. -/
def countEnterTy (ty : String) (tr : List Ev) : Nat :=
  (tr.filter fun e => e = Ev.enterEv ty).length

/-- Number of engine enter phases in a trace. -/
def countEnterEv (tr : List Ev) : Nat :=
  (tr.filter fun e => match e with | Ev.enterEv _ => true | _ => false).length

/-- Number of engine exit phases in a trace. -/
def countExitEv (tr : List Ev) : Nat :=
  (tr.filter fun e => match e with | Ev.exitEv _ => true | _ => false).length

/-- Number of enter hook calls for a given type tag in a trace. -/
def countEnterHookTy (ty : String) (tr : List Ev) : Nat :=
  (tr.filter fun e => match e with
    | Ev.enterHookEv t _ => t = ty
    | _ => false).length

/-- Decidable equality for Except results, so concrete runs can be checked
by decide. -/
instance {e a : Type} [DecidableEq e] [DecidableEq a] : DecidableEq (Except e a) := fun x y =>
  match x, y with
  | .error u, .error v =>
    if h : u = v then .isTrue (by rw [h]) else .isFalse fun hh => h (by injection hh)
  | .ok u, .ok v =>
    if h : u = v then .isTrue (by rw [h]) else .isFalse fun hh => h (by injection hh)
  | .error _, .ok _ => .isFalse fun hh => nomatch hh
  | .ok _, .error _ => .isFalse fun hh => nomatch hh

/-- A one-element trace when a hook is present, else nothing. -/
def hookEvIf (present : Bool) (ev : Ev) : List Ev :=
  if present then [ev] else []

/-- The trace one activation of a node of type ty produces when no hook
mutates: the engine enter phase, the enter hook call if one is registered,
the events of the children, the exit hook call if registered, and the
engine exit phase. -/
def activationTrace (vis : Visitors) (ty : String) (node : JVal) (inner : List Ev) : List Ev :=
  Ev.enterEv ty ::
    (hookEvIf ((lookupVisitor vis (some ty)).bind VisitorEntry.enterHook).isSome
        (.enterHookEv ty node) ++
      (inner ++
        (hookEvIf ((lookupVisitor vis (some ty)).bind VisitorEntry.exitHook).isSome
            (.exitHookEv ty node) ++
          [Ev.exitEv ty])))

/-- A hook slot that, when occupied, always answers with the do-nothing
command. -/
def HookNone (h : Option (PathInfo → Cmd)) : Prop :=
  ∀ f p, h = some f → f p = Cmd.cnone

/-- A visitor map none of whose hooks ever mutates the tree. -/
def NonMut (vis : Visitors) : Prop :=
  ∀ ty e, (ty, e) ∈ vis → HookNone e.enterHook ∧ HookNone e.exitHook

/-- The canonical walk relation: RunSpec defs vis task tr n out b states
that the task, run under a schema registry defs and a visitor map whose
hooks do not mutate, produces exactly the trace tr, performs n node
activations, returns out, and succeeds under any fuel of at least b. Child
fields are listed in schema order and sequence elements in ascending index
order, each node contributing one enter phase before and one exit phase
after all events of its children. -/
inductive RunSpec (defs : Defs) (vis : Visitors) :
    TravTask → List Ev → Nat → JVal × Slot → Nat → Prop where
  | leafNode : ∀ ty fields key slot e,
      defs.lookup ty = some e → e.visitor = none →
      RunSpec defs vis (.tnode (.vnode ty fields) key slot)
        (activationTrace vis ty (.vnode ty fields) []) 1
        (.vnode ty fields, foldChild slot (.vnode ty fields)) 1
  | innerNode : ∀ ty fields key slot e keys tr n b,
      defs.lookup ty = some e → e.visitor = some keys →
      RunSpec defs vis (.tfields keys (.vnode ty fields)) tr n (.vnode ty fields, .root) b →
      RunSpec defs vis (.tnode (.vnode ty fields) key slot)
        (activationTrace vis ty (.vnode ty fields) tr) (1 + n)
        (.vnode ty fields, foldChild slot (.vnode ty fields)) (b + 1)
  | fieldsNil : ∀ node,
      RunSpec defs vis (.tfields [] node) [] 0 (node, .root) 1
  | fieldsConsNode : ∀ key rest ty fields ty2 fs2 tr1 n1 b1 tr2 n2 b2,
      fields.lookup key = some (.vnode ty2 fs2) →
      (fields.map Prod.fst).Nodup →
      RunSpec defs vis (.tnode (.vnode ty2 fs2) (some key) (.single none)) tr1 n1
        (.vnode ty2 fs2, .single none) b1 →
      RunSpec defs vis (.tfields rest (.vnode ty fields)) tr2 n2 (.vnode ty fields, .root) b2 →
      RunSpec defs vis (.tfields (key :: rest) (.vnode ty fields)) (tr1 ++ tr2) (n1 + n2)
        (.vnode ty fields, .root) (max b1 b2 + 1)
  | fieldsConsArr : ∀ key rest ty fields l tr1 n1 b1 tr2 n2 b2,
      fields.lookup key = some (.varr l) →
      (fields.map Prod.fst).Nodup →
      RunSpec defs vis (.tarr key 0 l .att) tr1 n1 (.varr l, .root) b1 →
      RunSpec defs vis (.tfields rest (.vnode ty fields)) tr2 n2 (.vnode ty fields, .root) b2 →
      RunSpec defs vis (.tfields (key :: rest) (.vnode ty fields)) (tr1 ++ tr2) (n1 + n2)
        (.vnode ty fields, .root) (max b1 b2 + 1)
  | arrNil : ∀ key k arr,
      arr.length ≤ k →
      RunSpec defs vis (.tarr key k arr .att) [] 0 (.varr arr, .root) 1
  | arrCons : ∀ key k arr tr1 n1 b1 tr2 n2 b2 (h : k < arr.length),
      RunSpec defs vis (.tnode (arr.get ⟨k, h⟩) (some key) (.elem k arr .att true)) tr1 n1
        (arr.get ⟨k, h⟩, .elem k arr .att true) b1 →
      RunSpec defs vis (.tarr key (k + 1) arr .att) tr2 n2 (.varr arr, .root) b2 →
      RunSpec defs vis (.tarr key k arr .att) (tr1 ++ tr2) (n1 + n2) (.varr arr, .root)
        (max b1 b2 + 1)

/-- The NumericLiteral node of scenario A, value 1. -/
def nlNode : JVal := .vnode "NumericLiteral" [("value", .vnum 1)]

/-- The replacement Identifier x of scenario A. -/
def idX : JVal := .vnode "Identifier" [("name", .vstr "x")]

/-- The scenario A tree: a Program whose body holds one NumericLiteral. -/
def treeA : JVal := .vnode "Program" [("body", .varr [nlNode])]

/-- The scenario A visitor: replace every NumericLiteral on exit. -/
def visA : Visitors := [("NumericLiteral", .vobj none (some fun _ => .creplaceWith idX))]

/-- Scenario B node of type A. -/
def aNode : JVal := .vnode "A" []

/-- Scenario B node of type B. -/
def bNode : JVal := .vnode "B" []

/-- Scenario B node of type C. -/
def cNode : JVal := .vnode "C" []

/-- The scenario B schema: Program walks body, the three leaf types have
no child fields. -/
def defsB : Defs := [("Program", ⟨some ["body"]⟩), ("A", ⟨none⟩), ("B", ⟨none⟩), ("C", ⟨none⟩)]

/-- The scenario B tree: Program with body holding A, B, C in order. -/
def treeB : JVal := .vnode "Program" [("body", .varr [aNode, bNode, cNode])]

/-- The scenario B visitor: remove node B on enter. -/
def visB : Visitors := [("B", .vobj (some fun _ => .cremove) none)]

/-- Identifier a, used as the declarator id in the declaration scenarios. -/
def idA : JVal := .vnode "Identifier" [("name", .vstr "a")]

/-- A VariableDeclarator with id Identifier a and init NumericLiteral 1. -/
def vdr : JVal := .vnode "VariableDeclarator" [("id", idA), ("init", nlNode)]

/-- A VariableDeclaration holding that declarator. -/
def vdecl : JVal := .vnode "VariableDeclaration" [("declarations", .varr [vdr])]

/-- The declaration tree rooted at a Program, used for C3, C4 and C7. -/
def treeDecl : JVal := .vnode "Program" [("body", .varr [vdecl])]

/-- The replacement Identifier m of the C3 scenario. -/
def mIdent : JVal := .vnode "Identifier" [("name", .vstr "m")]

/-- The C3 visitor: replace the VariableDeclarator with Identifier m on
enter, and observe it again on exit. -/
def visC3 : Visitors :=
  [("VariableDeclarator", .vobj (some fun _ => .creplaceWith mIdent) (some fun _ => .cnone))]

/-- The C4 visitor: remove the VariableDeclaration on enter, and register
an exit hook so that its firing is observable. -/
def visC4 : Visitors :=
  [("VariableDeclaration", .vobj (some fun _ => .cremove) (some fun _ => .cnone))]

/-- Identifier b, second healthy sibling of the C5 scenario. -/
def idB : JVal := .vnode "Identifier" [("name", .vstr "b")]

/-- A node whose type has no entry in astDefinitionsMap. -/
def mysteryNode : JVal := .vnode "Mystery" []

/-- The C5 tree: Program with body holding Identifier a, the unknown
Mystery node, then Identifier b. -/
def treeC5 : JVal := .vnode "Program" [("body", .varr [idA, mysteryNode, idB])]

/-- The C8 visitor: remove the root Program on enter. -/
def visRoot : Visitors := [("Program", .vobj (some fun _ => .cremove) none)]

/-- The C6 visitor: replace the NumericLiteral with Identifier x on enter,
register hooks on Identifier so a visit of the replacement would be
recorded, and register an exit hook on Program. -/
def visC6 : Visitors :=
  [("NumericLiteral", .vobj (some fun _ => .creplaceWith idX) none),
   ("Identifier", .vobj (some fun _ => .cnone) (some fun _ => .cnone)),
   ("Program", .vobj none (some fun _ => .cnone))]

theorem lookup_mem {α β : Type} [BEq α] [LawfulBEq α] {l : List (α × β)} {k : α} {v : β}
    (h : l.lookup k = some v) : (k, v) ∈ l := by
  induction l with
  | nil => simp [List.lookup] at h
  | cons a rest ih =>
    rcases a with ⟨k1, v1⟩
    rw [List.lookup] at h
    rcases hk : (k == k1) with _ | _
    · rw [hk] at h
      exact List.mem_cons_of_mem _ (ih h)
    · rw [hk] at h
      injection h with hv
      have hk2 : k = k1 := eq_of_beq hk
      rw [hk2, ← hv]
      exact List.mem_cons_self _ _

theorem hookNone_of_nonMut {vis : Visitors} {ty : String} {e : VisitorEntry}
    (hNM : NonMut vis) (hlk : vis.lookup ty = some e) :
    HookNone e.enterHook ∧ HookNone e.exitHook :=
  hNM ty e (lookup_mem hlk)

theorem bindEnter_hookNone {vis : Visitors} (hNM : NonMut vis) (ty : String) :
    HookNone ((lookupVisitor vis (some ty)).bind VisitorEntry.enterHook) := by
  intro f p hf
  cases hlk : vis.lookup ty with
  | none => simp [lookupVisitor, hlk] at hf
  | some e =>
    apply (hookNone_of_nonMut hNM hlk).1
    simpa [lookupVisitor, hlk] using hf

theorem bindExit_hookNone {vis : Visitors} (hNM : NonMut vis) (ty : String) :
    HookNone ((lookupVisitor vis (some ty)).bind VisitorEntry.exitHook) := by
  intro f p hf
  cases hlk : vis.lookup ty with
  | none => simp [lookupVisitor, hlk] at hf
  | some e =>
    apply (hookNone_of_nonMut hNM hlk).2
    simpa [lookupVisitor, hlk] using hf

theorem runHook_enter_noMut {hook : Option (PathInfo → Cmd)} (hh : HookNone hook)
    (ty : String) (p : PathInfo) (slot : Slot) :
    runHook ty true hook p slot = (hookEvIf hook.isSome (.enterHookEv ty p.node), .ok slot) := by
  cases hook with
  | none => simp [runHook, hookEvIf]
  | some f => simp [runHook, hookEvIf, hh f p rfl, applySlot]

theorem runHook_exit_noMut {hook : Option (PathInfo → Cmd)} (hh : HookNone hook)
    (ty : String) (p : PathInfo) (slot : Slot) :
    runHook ty false hook p slot = (hookEvIf hook.isSome (.exitHookEv ty p.node), .ok slot) := by
  cases hook with
  | none => simp [runHook, hookEvIf]
  | some f => simp [runHook, hookEvIf, hh f p rfl, applySlot]

theorem go_tnode_leaf {defs : Defs} {vis : Visitors} {ty : String}
    {fields : List (String × JVal)} {e : SchemaEntry}
    (hNM : NonMut vis) (he : defs.lookup ty = some e) (hv : e.visitor = none)
    (f : Nat) (key : Option String) (slot : Slot) :
    go defs vis (f + 1) (.tnode (.vnode ty fields) key slot) =
      (activationTrace vis ty (.vnode ty fields) [],
       .ok (.vnode ty fields, foldChild slot (.vnode ty fields))) := by
  simp only [go, goStep, getTypeTag, he, hv, Option.getD_some,
    runHook_enter_noMut (bindEnter_hookNone hNM ty),
    runHook_exit_noMut (bindExit_hookNone hNM ty),
    activationTrace, List.nil_append, List.append_nil, List.append_assoc]

theorem go_tnode_inner {defs : Defs} {vis : Visitors} {ty : String}
    {fields : List (String × JVal)} {e : SchemaEntry} {keys : List String}
    {trD : List Ev} {s0 : Slot}
    (hNM : NonMut vis) (he : defs.lookup ty = some e) (hv : e.visitor = some keys)
    (f : Nat) (key : Option String) (slot : Slot)
    (hrec : go defs vis f (.tfields keys (.vnode ty fields)) = (trD, .ok (.vnode ty fields, s0))) :
    go defs vis (f + 1) (.tnode (.vnode ty fields) key slot) =
      (activationTrace vis ty (.vnode ty fields) trD,
       .ok (.vnode ty fields, foldChild slot (.vnode ty fields))) := by
  simp only [go, goStep, getTypeTag, he, hv, hrec, Option.getD_some,
    runHook_enter_noMut (bindEnter_hookNone hNM ty),
    runHook_exit_noMut (bindExit_hookNone hNM ty),
    activationTrace, List.nil_append, List.append_nil, List.append_assoc]

theorem setField_of_not_mem {fields : List (String × JVal)} {key : String} (v : JVal)
    (h : key ∉ fields.map Prod.fst) : setField fields key v = fields := by
  induction fields with
  | nil => rfl
  | cons a rest ih =>
    rcases a with ⟨k1, v1⟩
    simp only [List.map, List.mem_cons, not_or] at h
    simp only [setField, List.map]
    rw [if_neg (fun hh => h.1 hh.symm)]
    have := ih h.2
    simp only [setField] at this
    rw [this]

theorem setField_lookup_self {fields : List (String × JVal)} {key : String} {v : JVal}
    (hnd : (fields.map Prod.fst).Nodup) (hlk : fields.lookup key = some v) :
    setField fields key v = fields := by
  induction fields with
  | nil => simp [List.lookup] at hlk
  | cons a rest ih =>
    rcases a with ⟨k1, v1⟩
    simp only [List.map, List.nodup_cons] at hnd
    rcases hk : (key == k1) with _ | _
    · simp only [List.lookup, hk] at hlk
      have hne : ¬(k1 = key) := by
        intro hh
        rw [hh] at hk
        simp at hk
      simp only [setField, List.map]
      rw [if_neg hne]
      have := ih hnd.2 hlk
      simp only [setField] at this
      rw [this]
    · simp only [List.lookup, hk] at hlk
      have hkeq : key = k1 := eq_of_beq hk
      injection hlk with hv
      simp only [setField, List.map]
      rw [if_pos hkeq.symm, ← hv]
      have hnot : k1 ∉ rest.map Prod.fst := hnd.1
      have := @setField_of_not_mem rest key v1 (by rw [hkeq]; exact hnot)
      simp only [setField] at this
      rw [this]

theorem runSpec_go {defs : Defs} {vis : Visitors} {task : TravTask} {tr : List Ev}
    {n b : Nat} {out : JVal × Slot}
    (hNM : NonMut vis) (h : RunSpec defs vis task tr n out b) :
    ∀ fuel, b ≤ fuel → go defs vis fuel task = (tr, .ok out) := by
  induction h with
  | leafNode ty fields key slot e he hv =>
    intro fuel hf
    obtain ⟨f, rfl⟩ : ∃ f, fuel = f + 1 := ⟨fuel - 1, by omega⟩
    exact go_tnode_leaf hNM he hv f key slot
  | innerNode ty fields key slot e keys tr n b he hv hsub ih =>
    intro fuel hf
    obtain ⟨f, rfl⟩ : ∃ f, fuel = f + 1 := ⟨fuel - 1, by omega⟩
    exact go_tnode_inner hNM he hv f key slot (ih f (by omega))
  | fieldsNil node =>
    intro fuel hf
    obtain ⟨f, rfl⟩ : ∃ f, fuel = f + 1 := ⟨fuel - 1, by omega⟩
    simp [go, goStep]
  | fieldsConsNode key rest ty fields ty2 fs2 tr1 n1 b1 tr2 n2 b2 hlk hnd hc hr ihc ihr =>
    intro fuel hf
    obtain ⟨f, rfl⟩ : ∃ f, fuel = f + 1 := ⟨fuel - 1, by omega⟩
    have h1 := ihc f (by omega)
    have h2 := ihr f (by omega)
    simp only [go, goStep, hlk, h1, setField_lookup_self hnd hlk, h2]
  | fieldsConsArr key rest ty fields l tr1 n1 b1 tr2 n2 b2 hlk hnd hc hr ihc ihr =>
    intro fuel hf
    obtain ⟨f, rfl⟩ : ∃ f, fuel = f + 1 := ⟨fuel - 1, by omega⟩
    have h1 := ihc f (by omega)
    have h2 := ihr f (by omega)
    simp only [go, goStep, hlk, h1, setField_lookup_self hnd hlk, h2]
  | arrNil key k arr hlen =>
    intro fuel hf
    obtain ⟨f, rfl⟩ : ∃ f, fuel = f + 1 := ⟨fuel - 1, by omega⟩
    simp only [go, goStep]
    rw [dif_neg (by omega)]
  | arrCons key k arr tr1 n1 b1 tr2 n2 b2 hksmall hc hr ihc ihr =>
    intro fuel hf
    obtain ⟨f, rfl⟩ : ∃ f, fuel = f + 1 := ⟨fuel - 1, by omega⟩
    have h1 := ihc f (by omega)
    have h2 := ihr f (by omega)
    simp only [go, goStep]
    rw [dif_pos hksmall]
    simp only [h1, h2]

theorem countEnterEv_append (a b : List Ev) :
    countEnterEv (a ++ b) = countEnterEv a + countEnterEv b := by
  simp [countEnterEv, List.filter_append]

theorem countExitEv_append (a b : List Ev) :
    countExitEv (a ++ b) = countExitEv a + countExitEv b := by
  simp [countExitEv, List.filter_append]

theorem countEnterEv_activation (vis : Visitors) (ty : String) (node : JVal) (inner : List Ev) :
    countEnterEv (activationTrace vis ty node inner) = 1 + countEnterEv inner := by
  rcases hE : ((lookupVisitor vis (some ty)).bind VisitorEntry.enterHook).isSome with _ | _ <;>
  rcases hX : ((lookupVisitor vis (some ty)).bind VisitorEntry.exitHook).isSome with _ | _ <;>
  simp [activationTrace, hookEvIf, hE, hX, countEnterEv, List.filter_append, List.filter_cons] <;>
  omega

theorem countExitEv_activation (vis : Visitors) (ty : String) (node : JVal) (inner : List Ev) :
    countExitEv (activationTrace vis ty node inner) = 1 + countExitEv inner := by
  rcases hE : ((lookupVisitor vis (some ty)).bind VisitorEntry.enterHook).isSome with _ | _ <;>
  rcases hX : ((lookupVisitor vis (some ty)).bind VisitorEntry.exitHook).isSome with _ | _ <;>
  simp [activationTrace, hookEvIf, hE, hX, countExitEv, List.filter_append, List.filter_cons] <;>
  omega

theorem runSpec_counts {defs : Defs} {vis : Visitors} {task : TravTask} {tr : List Ev}
    {n b : Nat} {out : JVal × Slot} (h : RunSpec defs vis task tr n out b) :
    countEnterEv tr = n ∧ countExitEv tr = n := by
  induction h with
  | leafNode ty fields key slot e he hv =>
    constructor
    · rw [countEnterEv_activation]
      simp [countEnterEv]
    · rw [countExitEv_activation]
      simp [countExitEv]
  | innerNode ty fields key slot e keys tr n b he hv hsub ih =>
    constructor
    · rw [countEnterEv_activation, ih.1]
    · rw [countExitEv_activation, ih.2]
  | fieldsNil node => simp [countEnterEv, countExitEv]
  | fieldsConsNode key rest ty fields ty2 fs2 tr1 n1 b1 tr2 n2 b2 hlk hnd hc hr ihc ihr =>
    constructor
    · rw [countEnterEv_append, ihc.1, ihr.1]
    · rw [countExitEv_append, ihc.2, ihr.2]
  | fieldsConsArr key rest ty fields l tr1 n1 b1 tr2 n2 b2 hlk hnd hc hr ihc ihr =>
    constructor
    · rw [countEnterEv_append, ihc.1, ihr.1]
    · rw [countExitEv_append, ihc.2, ihr.2]
  | arrNil key k arr hlen => simp [countEnterEv, countExitEv]
  | arrCons key k arr tr1 n1 b1 tr2 n2 b2 hksmall hc hr ihc ihr =>
    constructor
    · rw [countEnterEv_append, ihc.1, ihr.1]
    · rw [countExitEv_append, ihc.2, ihr.2]

/-- C1 counterexample: in scenario A (tree Program with body [NumericLiteral 1],
visitor replacing the NumericLiteral with Identifier x on exit) the walk
succeeds but leaves root.body equal to the Identifier node itself, not to a
one-element sequence holding it: the element sits at index 0, where the
falsy listKey skips the splice, and the unconditional assignment
this.parent[this.key] = node overwrites the whole body array. So the claim
that replaceWith splices exactly one element and leaves the rest of the
sequence intact, with root.body[0] deep-equal to the Identifier, is false
on the code. -/
theorem c1_scenarioA_counterexample :
    runTraverse astDefinitionsMap visA 10 treeA =
      ([.enterEv "Program", .enterEv "NumericLiteral", .exitHookEv "NumericLiteral" nlNode,
        .exitEv "NumericLiteral", .exitEv "Program"],
       .ok (.vnode "Program" [("body", idX)])) ∧
    (JVal.vnode "Program" [("body", idX)]) ≠ .vnode "Program" [("body", .varr [idX])] :=
  ⟨rfl, by decide⟩

/-- C1 amended: replaceWith always ends by assigning newNode into the
parent field. With a truthy (nonzero) array index on a still-attached
array it first splices one element at that index, but the trailing
assignment then rebinds the whole field to newNode; with index 0 or no
index nothing is spliced and the field is simply overwritten. In scenario
A the walk therefore leaves root.body equal to the Identifier node itself. -/
theorem c1_replaceWith_amended :
    (∀ (k : Nat) (arr : List JVal) (inArr : Bool) (m : JVal), k ≠ 0 →
      NodePath.replaceWith (.elem k arr .att inArr) m =
        .ok (.elem k (spliceReplace1 k arr m) (.det m) false)) ∧
    (∀ (arr : List JVal) (fs : FSt) (inArr : Bool) (m : JVal),
      NodePath.replaceWith (.elem 0 arr fs inArr) m = .ok (.elem 0 arr (.det m) inArr)) ∧
    (∀ (fv : Option JVal) (m : JVal),
      NodePath.replaceWith (.single fv) m = .ok (.single (some m))) ∧
    runTraverse astDefinitionsMap visA 10 treeA =
      ([.enterEv "Program", .enterEv "NumericLiteral", .exitHookEv "NumericLiteral" nlNode,
        .exitEv "NumericLiteral", .exitEv "Program"],
       .ok (.vnode "Program" [("body", idX)])) := by
  refine ⟨?_, ?_, ?_, rfl⟩
  · intro k arr inArr m hk
    simp [NodePath.replaceWith, hk]
  · intro arr fs inArr m
    simp [NodePath.replaceWith]
  · intro fv m
    simp [NodePath.replaceWith]

/-- Witness for the amended C1 theorem at a concrete nonzero index. -/
theorem c1_replaceWith_amended_witness :
    NodePath.replaceWith (.elem 1 [aNode, bNode] .att true) idX =
      .ok (.elem 1 (spliceReplace1 1 [aNode, bNode] idX) (.det idX) false) :=
  c1_replaceWith_amended.1 1 [aNode, bNode] true idX (by decide)

/-- C2 counterexample: in scenario B (body [A, B, C], remove B on enter)
the walk ends with root.body equal to null, not [A, C], and C is never
visited: the splice at index 1 happens on the array the forEach iterates,
so the old index 2 now holds C but iteration has already passed it, and
the unconditional assignment then rebinds body to null. -/
theorem c2_scenarioB_counterexample :
    runTraverse defsB visB 10 treeB =
      ([.enterEv "Program", .enterEv "A", .exitEv "A", .enterEv "B", .enterHookEv "B" bNode,
        .exitEv "B", .exitEv "Program"],
       .ok (.vnode "Program" [("body", JVal.vnull)])) ∧
    countEnterTy "C" (runTraverse defsB visB 10 treeB).1 = 0 ∧
    (JVal.vnode "Program" [("body", JVal.vnull)]) ≠
      .vnode "Program" [("body", .varr [aNode, cNode])] :=
  ⟨rfl, rfl, by decide⟩

/-- C2 amended: remove with a truthy (nonzero) index on a still-attached
array splices that element out, then the trailing assignment rebinds the
whole field to null; with index 0 or a singular field nothing is spliced
and the field is set to null (the null sentinel playing the Tombstone
role). Under the forEach of the engine the element right after a spliced
index is skipped, so in scenario B root.body ends as null, A and B are
visited once and C never. -/
theorem c2_remove_amended :
    (∀ (k : Nat) (arr : List JVal) (inArr : Bool), k ≠ 0 →
      NodePath.remove (.elem k arr .att inArr) =
        .ok (.elem k (spliceRemove1 k arr) (.det .vnull) false)) ∧
    (∀ (arr : List JVal) (fs : FSt) (inArr : Bool),
      NodePath.remove (.elem 0 arr fs inArr) = .ok (.elem 0 arr (.det .vnull) inArr)) ∧
    (∀ (fv : Option JVal), NodePath.remove (.single fv) = .ok (.single (some .vnull))) ∧
    runTraverse defsB visB 10 treeB =
      ([.enterEv "Program", .enterEv "A", .exitEv "A", .enterEv "B", .enterHookEv "B" bNode,
        .exitEv "B", .exitEv "Program"],
       .ok (.vnode "Program" [("body", JVal.vnull)])) := by
  refine ⟨?_, ?_, ?_, rfl⟩
  · intro k arr inArr hk
    simp [NodePath.remove, hk]
  · intro arr fs inArr
    simp [NodePath.remove]
  · intro fv
    simp [NodePath.remove]

/-- Witness for the amended C2 theorem at a concrete nonzero index. -/
theorem c2_remove_amended_witness :
    NodePath.remove (.elem 1 [aNode, bNode, cNode] .att true) =
      .ok (.elem 1 (spliceRemove1 1 [aNode, bNode, cNode]) (.det .vnull) false) :=
  c2_remove_amended.1 1 [aNode, bNode, cNode] true (by decide)

/-- C3 counterexample: with a visitor that replaces the VariableDeclarator
by Identifier m on enter, the engine still descends into the original
declarator (the NumericLiteral init child gets an enter phase, although
the replacement Identifier has no children at all) and the exit hook fires
with the path still referencing the original declarator, not the
replacement. So the claim that the path node reference is updated to the
new node, that the engine descends into the children of the new node, and
that the exit hook references the new node, is false on the code. -/
theorem c3_replace_counterexample :
    runTraverse astDefinitionsMap visC3 10 treeDecl =
      ([.enterEv "Program", .enterEv "VariableDeclaration", .enterEv "VariableDeclarator",
        .enterHookEv "VariableDeclarator" vdr, .enterEv "Identifier", .exitEv "Identifier",
        .enterEv "NumericLiteral", .exitEv "NumericLiteral",
        .exitHookEv "VariableDeclarator" vdr, .exitEv "VariableDeclarator",
        .exitEv "VariableDeclaration", .exitEv "Program"],
       .ok (.vnode "Program"
         [("body", .varr [.vnode "VariableDeclaration" [("declarations", mIdent)]])])) ∧
    Ev.enterEv "NumericLiteral" ∈ (runTraverse astDefinitionsMap visC3 10 treeDecl).1 ∧
    Ev.exitHookEv "VariableDeclarator" vdr ∈ (runTraverse astDefinitionsMap visC3 10 treeDecl).1 ∧
    vdr ≠ mIdent :=
  ⟨rfl, by decide, by decide, by decide⟩

/-- C3 amended: replaceWith during enter rebinds the tree slot to the new
node M, but the path node reference is not updated: the engine descends
into the original node object (the tfields task below runs on the original
fields), and the exit hook fires with the path referencing the original
node as updated by its descendants, never M; M itself is not traversed. -/
theorem c3_replace_amended {defs : Defs} {vis : Visitors} {ty : String}
    {fields : List (String × JVal)} {e : SchemaEntry} {keys : List String}
    {eF xF : PathInfo → Cmd} {M : JVal} {trD : List Ev} {c : JVal} {s0 : Slot} {f : Nat}
    (hvlk : vis.lookup ty = some (.vobj (some eF) (some xF)))
    (heF : ∀ p, eF p = .creplaceWith M)
    (hxF : ∀ p, xF p = Cmd.cnone)
    (he : defs.lookup ty = some e) (hv : e.visitor = some keys)
    (hrec : go defs vis f (.tfields keys (.vnode ty fields)) = (trD, .ok (c, s0)))
    (key : Option String) :
    go defs vis (f + 1) (.tnode (.vnode ty fields) key (.single none)) =
      (Ev.enterEv ty :: ([Ev.enterHookEv ty (.vnode ty fields)] ++
        (trD ++ ([Ev.exitHookEv ty c] ++ [Ev.exitEv ty]))),
       .ok (c, .single (some M))) := by
  simp only [go, goStep, getTypeTag, lookupVisitor, hvlk, he, hv, hrec, Option.getD_some,
    runHook, VisitorEntry.enterHook, VisitorEntry.exitHook, Option.bind, heF, hxF,
    applySlot, NodePath.replaceWith, foldChild]
  simp [List.append_assoc]

/-- Witness for the amended C3 theorem on the declarator scenario. -/
theorem c3_replace_amended_witness :
    go astDefinitionsMap visC3 6 (.tnode vdr (some "declarations") (.single none)) =
      (Ev.enterEv "VariableDeclarator" :: ([Ev.enterHookEv "VariableDeclarator" vdr] ++
        ([.enterEv "Identifier", .exitEv "Identifier", .enterEv "NumericLiteral",
          .exitEv "NumericLiteral"] ++
          ([Ev.exitHookEv "VariableDeclarator" vdr] ++ [Ev.exitEv "VariableDeclarator"]))),
       .ok (vdr, .single (some mIdent))) :=
  @c3_replace_amended astDefinitionsMap visC3 "VariableDeclarator"
    [("id", idA), ("init", nlNode)] _ _ _ _ mIdent _ _ _ 5
    (by rfl) (fun _ => rfl) (fun _ => rfl) (by rfl) (by rfl) (by rfl) (some "declarations")

/-- C4 counterexample: with a visitor that removes the VariableDeclaration
on enter, the engine still descends into its former children (the
declarator and its leaves all get enter phases) and still fires its exit
hook; only the parent slot became null. So the claim that after remove the
engine does not descend and does not fire the exit hook is false on the
code. -/
theorem c4_remove_counterexample :
    runTraverse astDefinitionsMap visC4 10 treeDecl =
      ([.enterEv "Program", .enterEv "VariableDeclaration",
        .enterHookEv "VariableDeclaration" vdecl, .enterEv "VariableDeclarator",
        .enterEv "Identifier", .exitEv "Identifier", .enterEv "NumericLiteral",
        .exitEv "NumericLiteral", .exitEv "VariableDeclarator",
        .exitHookEv "VariableDeclaration" vdecl, .exitEv "VariableDeclaration",
        .exitEv "Program"],
       .ok (.vnode "Program" [("body", JVal.vnull)])) ∧
    Ev.enterEv "VariableDeclarator" ∈ (runTraverse astDefinitionsMap visC4 10 treeDecl).1 ∧
    Ev.exitHookEv "VariableDeclaration" vdecl ∈ (runTraverse astDefinitionsMap visC4 10 treeDecl).1 :=
  ⟨rfl, by decide, by decide⟩

/-- C4 amended: remove during enter rebinds the tree slot to null, but the
engine performs no removal check: it still descends into the children of
the removed node (the tfields task below runs on its fields) and still
fires its exit hook; traversal then continues after the slot, which now
holds null. -/
theorem c4_remove_amended {defs : Defs} {vis : Visitors} {ty : String}
    {fields : List (String × JVal)} {e : SchemaEntry} {keys : List String}
    {eF xF : PathInfo → Cmd} {trD : List Ev} {c : JVal} {s0 : Slot} {f : Nat}
    (hvlk : vis.lookup ty = some (.vobj (some eF) (some xF)))
    (heF : ∀ p, eF p = Cmd.cremove)
    (hxF : ∀ p, xF p = Cmd.cnone)
    (he : defs.lookup ty = some e) (hv : e.visitor = some keys)
    (hrec : go defs vis f (.tfields keys (.vnode ty fields)) = (trD, .ok (c, s0)))
    (key : Option String) :
    go defs vis (f + 1) (.tnode (.vnode ty fields) key (.single none)) =
      (Ev.enterEv ty :: ([Ev.enterHookEv ty (.vnode ty fields)] ++
        (trD ++ ([Ev.exitHookEv ty c] ++ [Ev.exitEv ty]))),
       .ok (c, .single (some .vnull))) := by
  simp only [go, goStep, getTypeTag, lookupVisitor, hvlk, he, hv, hrec, Option.getD_some,
    runHook, VisitorEntry.enterHook, VisitorEntry.exitHook, Option.bind, heF, hxF,
    applySlot, NodePath.remove, foldChild]
  simp [List.append_assoc]

/-- Witness for the amended C4 theorem on the declaration scenario. -/
theorem c4_remove_amended_witness :
    go astDefinitionsMap visC4 7 (.tnode vdecl (some "body") (.single none)) =
      (Ev.enterEv "VariableDeclaration" :: ([Ev.enterHookEv "VariableDeclaration" vdecl] ++
        ([.enterEv "VariableDeclarator", .enterEv "Identifier", .exitEv "Identifier",
          .enterEv "NumericLiteral", .exitEv "NumericLiteral", .exitEv "VariableDeclarator"] ++
          ([Ev.exitHookEv "VariableDeclaration" vdecl] ++ [Ev.exitEv "VariableDeclaration"]))),
       .ok (vdecl, .single (some .vnull))) :=
  @c4_remove_amended astDefinitionsMap visC4 "VariableDeclaration"
    [("declarations", .varr [vdr])] _ _ _ _ _ _ _ 6
    (by rfl) (fun _ => rfl) (fun _ => rfl) (by rfl) (by rfl) (by rfl) (some "body")

/-- C5: a node whose type has no schema entry makes the walk fail fatally.
The activation emits its enter phase (the engine reads the definition
before the enter hook but only dereferences it afterwards), then aborts
with the noDefinition error, the embedding of the TypeError thrown at
definition.visitor, which is the UnknownNodeType condition of the
specification; the error propagates unchanged to the caller, as the
concrete scenario shows: the sibling after the failing node is never
visited and the top-level call returns the same error. -/
theorem c5_unknown_type_fatal :
    (∀ (defs : Defs) (vis : Visitors) (ty : String) (fields : List (String × JVal))
      (key : Option String) (slot : Slot) (f : Nat),
      defs.lookup ty = none → vis.lookup ty = none →
      go defs vis (f + 1) (.tnode (.vnode ty fields) key slot) =
        ([Ev.enterEv ty], .error (.noDefinition (some ty)))) ∧
    runTraverse astDefinitionsMap [] 10 treeC5 =
      ([.enterEv "Program", .enterEv "Identifier", .exitEv "Identifier", .enterEv "Mystery"],
       .error (.noDefinition (some "Mystery"))) := by
  constructor
  · intro defs vis ty fields key slot f hd hvk
    simp only [go, goStep, getTypeTag, lookupVisitor, hd, hvk, Option.getD_some,
      runHook, Option.bind, List.append_nil]
  · rfl

/-- Witness for C5 at a concrete unknown node type. -/
theorem c5_unknown_type_fatal_witness :
    go astDefinitionsMap [] 1 (.tnode mysteryNode none .root) =
      ([Ev.enterEv "Mystery"], .error (.noDefinition (some "Mystery"))) :=
  c5_unknown_type_fatal.1 astDefinitionsMap [] "Mystery" [] none .root 0 rfl rfl

/-- C6 counterexample: in scenario A with an enter hook replacing the
NumericLiteral by Identifier x, hooks registered for Identifier, and an
exit hook on Program: the walk ends with root.body holding the Identifier,
the Program exit hook fires, but no hook of the Identifier child ever
fired. The exit hook of the parent therefore did not fire after the enter
and exit of its (replaced) child, so the claim is false on the code. -/
theorem c6_order_counterexample :
    runTraverse astDefinitionsMap visC6 10 treeA =
      ([.enterEv "Program", .enterEv "NumericLiteral", .enterHookEv "NumericLiteral" nlNode,
        .exitEv "NumericLiteral", .exitHookEv "Program" (.vnode "Program" [("body", idX)]),
        .exitEv "Program"],
       .ok (.vnode "Program" [("body", idX)])) ∧
    countEnterHookTy "Identifier" (runTraverse astDefinitionsMap visC6 10 treeA).1 = 0 ∧
    Ev.exitHookEv "Program" (.vnode "Program" [("body", idX)])
      ∈ (runTraverse astDefinitionsMap visC6 10 treeA).1 :=
  ⟨rfl, rfl, by decide⟩

/-- C6 amended: for visitors whose hooks do not mutate, the walk follows
the canonical order of the RunSpec relation: each activation is one enter
phase (with its enter hook directly after), then all events of the
children, taken from the original node in schema order with sequence
elements in ascending index order, then the exit hook and the exit phase;
in particular the whole trace of the walk is bracketed by the enter and
exit of the root. When a hook replaces a node the engine descends into the
original children, so the substituted node is never visited and the
ordering clause about possibly replaced children fails. -/
theorem c6_order_amended {defs : Defs} {vis : Visitors} {ty : String}
    {fields : List (String × JVal)} {tr : List Ev} {n b fuel : Nat}
    (hNM : NonMut vis)
    (h : RunSpec defs vis (.tnode (.vnode ty fields) none .root) tr n
      (.vnode ty fields, .root) b)
    (hf : b ≤ fuel) :
    runTraverse defs vis fuel (.vnode ty fields) = (tr, .ok (.vnode ty fields)) ∧
    ∃ inner, tr = Ev.enterEv ty :: inner ++ [Ev.exitEv ty] := by
  constructor
  · have hgo := runSpec_go hNM h fuel hf
    simp [runTraverse, hgo]
  · cases h with
    | leafNode _ _ _ _ e he hv =>
      refine ⟨hookEvIf ((lookupVisitor vis (some ty)).bind VisitorEntry.enterHook).isSome
          (Ev.enterHookEv ty (JVal.vnode ty fields)) ++
        hookEvIf ((lookupVisitor vis (some ty)).bind VisitorEntry.exitHook).isSome
          (Ev.exitHookEv ty (JVal.vnode ty fields)), ?_⟩
      simp [activationTrace, List.append_assoc]
    | innerNode _ _ _ _ e keys tr0 n0 b0 he hv hsub =>
      refine ⟨hookEvIf ((lookupVisitor vis (some ty)).bind VisitorEntry.enterHook).isSome
          (Ev.enterHookEv ty (JVal.vnode ty fields)) ++
        (tr0 ++
          hookEvIf ((lookupVisitor vis (some ty)).bind VisitorEntry.exitHook).isSome
            (Ev.exitHookEv ty (JVal.vnode ty fields))), ?_⟩
      simp [activationTrace, List.append_assoc]

/-- A non-mutating visitor with both hooks on Identifier, used by the C6
witness. -/
def visIdOnly : Visitors :=
  [("Identifier", .vobj (some fun _ => Cmd.cnone) (some fun _ => Cmd.cnone))]

/-- Witness for the amended C6 theorem: a one-node walk with hooks fires
enter phase, enter hook, exit hook, exit phase, in that order. -/
theorem c6_order_amended_witness :
    runTraverse astDefinitionsMap visIdOnly 5 idA =
      ([.enterEv "Identifier", .enterHookEv "Identifier" idA, .exitHookEv "Identifier" idA,
        .exitEv "Identifier"],
       .ok idA) ∧
    ∃ inner,
      ([Ev.enterEv "Identifier", Ev.enterHookEv "Identifier" idA,
        Ev.exitHookEv "Identifier" idA, Ev.exitEv "Identifier"] : List Ev) =
        Ev.enterEv "Identifier" :: inner ++ [Ev.exitEv "Identifier"] := by
  have hNM : NonMut visIdOnly := by
    intro ty e hmem
    simp only [visIdOnly, List.mem_cons, List.not_mem_nil, or_false] at hmem
    injection hmem with h1 h2
    subst h2
    constructor
    · intro f p hf
      simp only [VisitorEntry.enterHook] at hf
      injection hf with hf1
      rw [← hf1]
    · intro f p hf
      simp only [VisitorEntry.exitHook] at hf
      injection hf with hf1
      rw [← hf1]
  have hrs : RunSpec astDefinitionsMap visIdOnly (.tnode idA none .root)
      (activationTrace visIdOnly "Identifier" idA []) 1 (idA, .root) 1 :=
    RunSpec.leafNode "Identifier" [("name", .vstr "a")] none .root ⟨none⟩ rfl rfl
  have := @c6_order_amended astDefinitionsMap visIdOnly "Identifier" [("name", .vstr "a")]
    _ _ _ 5 hNM hrs (by omega)
  exact this

/-- C7: with an empty visitor map a walk related to its canonical RunSpec
run terminates without error, returns the tree unchanged, and performs
exactly one enter phase and one exit phase per reachable node, n being the
node count of the schema closure recorded by the relation. -/
theorem c7_empty_visitor_walk {defs : Defs} {t : JVal} {tr : List Ev} {n b fuel : Nat}
    (h : RunSpec defs [] (.tnode t none .root) tr n (t, .root) b)
    (hf : b ≤ fuel) :
    runTraverse defs [] fuel t = (tr, .ok t) ∧
    countEnterEv tr = n ∧ countExitEv tr = n := by
  have hNM : NonMut ([] : Visitors) := by
    intro ty e hmem
    simp at hmem
  have hgo := runSpec_go hNM h fuel hf
  exact ⟨by simp [runTraverse, hgo], (runSpec_counts h).1, (runSpec_counts h).2⟩

/-- Witness for C7 on the declaration tree: five nodes, five enter and
five exit phases, tree returned unchanged. -/
theorem c7_empty_visitor_walk_witness :
    runTraverse astDefinitionsMap [] 10 treeDecl =
      ([.enterEv "Program", .enterEv "VariableDeclaration", .enterEv "VariableDeclarator",
        .enterEv "Identifier", .exitEv "Identifier", .enterEv "NumericLiteral",
        .exitEv "NumericLiteral", .exitEv "VariableDeclarator", .exitEv "VariableDeclaration",
        .exitEv "Program"],
       .ok treeDecl) ∧
    countEnterEv
      [.enterEv "Program", .enterEv "VariableDeclaration", .enterEv "VariableDeclarator",
        .enterEv "Identifier", .exitEv "Identifier", .enterEv "NumericLiteral",
        .exitEv "NumericLiteral", .exitEv "VariableDeclarator", .exitEv "VariableDeclaration",
        .exitEv "Program"] = 5 ∧
    countExitEv
      [.enterEv "Program", .enterEv "VariableDeclaration", .enterEv "VariableDeclarator",
        .enterEv "Identifier", .exitEv "Identifier", .enterEv "NumericLiteral",
        .exitEv "NumericLiteral", .exitEv "VariableDeclarator", .exitEv "VariableDeclaration",
        .exitEv "Program"] = 5 := by
  have hId : RunSpec astDefinitionsMap [] (.tnode idA (some "id") (.single none))
      [.enterEv "Identifier", .exitEv "Identifier"] 1 (idA, .single none) 1 :=
    RunSpec.leafNode "Identifier" [("name", .vstr "a")] (some "id") (.single none) ⟨none⟩ rfl rfl
  have hNl : RunSpec astDefinitionsMap [] (.tnode nlNode (some "init") (.single none))
      [.enterEv "NumericLiteral", .exitEv "NumericLiteral"] 1 (nlNode, .single none) 1 :=
    RunSpec.leafNode "NumericLiteral" [("value", .vnum 1)] (some "init") (.single none)
      ⟨none⟩ rfl rfl
  have hF2 : RunSpec astDefinitionsMap [] (.tfields ["init"] vdr)
      [.enterEv "NumericLiteral", .exitEv "NumericLiteral"] 1 (vdr, .root) 2 :=
    RunSpec.fieldsConsNode _ _ _ _ _ _ _ _ _ _ _ _ (by rfl) (by decide) hNl (RunSpec.fieldsNil vdr)
  have hF1 : RunSpec astDefinitionsMap [] (.tfields ["id", "init"] vdr)
      [.enterEv "Identifier", .exitEv "Identifier", .enterEv "NumericLiteral",
       .exitEv "NumericLiteral"] 2 (vdr, .root) 3 :=
    RunSpec.fieldsConsNode _ _ _ _ _ _ _ _ _ _ _ _ (by rfl) (by decide) hId hF2
  have hVdr : RunSpec astDefinitionsMap []
      (.tnode vdr (some "declarations") (.elem 0 [vdr] .att true))
      [.enterEv "VariableDeclarator", .enterEv "Identifier", .exitEv "Identifier",
       .enterEv "NumericLiteral", .exitEv "NumericLiteral", .exitEv "VariableDeclarator"]
      3 (vdr, .elem 0 [vdr] .att true) 4 :=
    RunSpec.innerNode _ _ _ _ _ _ _ _ _ (by rfl) (by rfl) hF1
  have hArr1 : RunSpec astDefinitionsMap [] (.tarr "declarations" 0 [vdr] .att)
      [.enterEv "VariableDeclarator", .enterEv "Identifier", .exitEv "Identifier",
       .enterEv "NumericLiteral", .exitEv "NumericLiteral", .exitEv "VariableDeclarator"]
      3 (.varr [vdr], .root) 5 :=
    RunSpec.arrCons _ _ _ _ _ _ _ _ _ (by decide) hVdr (RunSpec.arrNil _ 1 [vdr] (by decide))
  have hF3 : RunSpec astDefinitionsMap [] (.tfields ["declarations"] vdecl)
      [.enterEv "VariableDeclarator", .enterEv "Identifier", .exitEv "Identifier",
       .enterEv "NumericLiteral", .exitEv "NumericLiteral", .exitEv "VariableDeclarator"]
      3 (vdecl, .root) 6 :=
    RunSpec.fieldsConsArr _ _ _ _ _ _ _ _ _ _ _ (by rfl) (by decide) hArr1
      (RunSpec.fieldsNil vdecl)
  have hVdecl : RunSpec astDefinitionsMap []
      (.tnode vdecl (some "body") (.elem 0 [vdecl] .att true))
      [.enterEv "VariableDeclaration", .enterEv "VariableDeclarator", .enterEv "Identifier",
       .exitEv "Identifier", .enterEv "NumericLiteral", .exitEv "NumericLiteral",
       .exitEv "VariableDeclarator", .exitEv "VariableDeclaration"]
      4 (vdecl, .elem 0 [vdecl] .att true) 7 :=
    RunSpec.innerNode _ _ _ _ _ _ _ _ _ (by rfl) (by rfl) hF3
  have hArr2 : RunSpec astDefinitionsMap [] (.tarr "body" 0 [vdecl] .att)
      [.enterEv "VariableDeclaration", .enterEv "VariableDeclarator", .enterEv "Identifier",
       .exitEv "Identifier", .enterEv "NumericLiteral", .exitEv "NumericLiteral",
       .exitEv "VariableDeclarator", .exitEv "VariableDeclaration"]
      4 (.varr [vdecl], .root) 8 :=
    RunSpec.arrCons _ _ _ _ _ _ _ _ _ (by decide) hVdecl (RunSpec.arrNil _ 1 [vdecl] (by decide))
  have hF4 : RunSpec astDefinitionsMap [] (.tfields ["body"] treeDecl)
      [.enterEv "VariableDeclaration", .enterEv "VariableDeclarator", .enterEv "Identifier",
       .exitEv "Identifier", .enterEv "NumericLiteral", .exitEv "NumericLiteral",
       .exitEv "VariableDeclarator", .exitEv "VariableDeclaration"]
      4 (treeDecl, .root) 9 :=
    RunSpec.fieldsConsArr _ _ _ _ _ _ _ _ _ _ _ (by rfl) (by decide) hArr2
      (RunSpec.fieldsNil treeDecl)
  have hRoot : RunSpec astDefinitionsMap [] (.tnode treeDecl none .root)
      [.enterEv "Program", .enterEv "VariableDeclaration", .enterEv "VariableDeclarator",
       .enterEv "Identifier", .exitEv "Identifier", .enterEv "NumericLiteral",
       .exitEv "NumericLiteral", .exitEv "VariableDeclarator", .exitEv "VariableDeclaration",
       .exitEv "Program"]
      5 (treeDecl, .root) 10 :=
    RunSpec.innerNode _ _ _ _ _ _ _ _ _ (by rfl) (by rfl) hF4
  exact c7_empty_visitor_walk hRoot (by omega)

/-- C8 counterexample: a splice requested with an out-of-range index does
not fail at all. remove with index 5 on a one-element attached array
deletes nothing (JavaScript splice clamps the start index) and then
rebinds the field to null; replaceWith with index 5 appends the new node
and then rebinds the field. Both return ok, so the claim that an
out-of-range array splice fails fatally with an InvalidMutation error is
false on the code. -/
theorem c8_out_of_range_counterexample :
    NodePath.remove (.elem 5 [idA] .att true) = .ok (.elem 5 [idA] (.det .vnull) false) ∧
    NodePath.replaceWith (.elem 5 [idA] .att true) idB =
      .ok (.elem 5 [idA, idB] (.det idB) false) := by
  decide

/-- C8 amended: remove and replaceWith on the root path (no parent) throw
immediately, the TypeError of dereferencing the undefined parent, and the
whole walk aborts with that error, as the concrete run shows; but an
out-of-range splice index does not fail: JavaScript splice clamps it, so
remove deletes nothing and replaceWith appends, and the trailing
assignment still rebinds the field. -/
theorem c8_mutation_amended :
    (∀ m : JVal, NodePath.replaceWith .root m = .error .memberOfUndefinedParent) ∧
    NodePath.remove .root = .error .memberOfUndefinedParent ∧
    runTraverse astDefinitionsMap visRoot 10 treeA =
      ([.enterEv "Program", .enterHookEv "Program" treeA], .error .memberOfUndefinedParent) ∧
    (∀ (k : Nat) (arr : List JVal), arr.length ≤ k → k ≠ 0 →
      NodePath.remove (.elem k arr .att true) = .ok (.elem k arr (.det .vnull) false)) ∧
    (∀ (k : Nat) (arr : List JVal) (m : JVal), arr.length ≤ k → k ≠ 0 →
      NodePath.replaceWith (.elem k arr .att true) m =
        .ok (.elem k (arr ++ [m]) (.det m) false)) := by
  refine ⟨fun m => rfl, rfl, rfl, ?_, ?_⟩
  · intro k arr hlen hk
    simp [NodePath.remove, hk, spliceRemove1, List.take_of_length_le hlen,
      List.drop_eq_nil_of_le (show arr.length ≤ k + 1 by omega)]
  · intro k arr m hlen hk
    simp [NodePath.replaceWith, hk, spliceReplace1, List.take_of_length_le hlen,
      List.drop_eq_nil_of_le (show arr.length ≤ k + 1 by omega)]

/-- Witness for the amended C8 theorem at a concrete out-of-range index. -/
theorem c8_mutation_amended_witness :
    NodePath.remove (.elem 5 [idB] .att true) = .ok (.elem 5 [idB] (.det .vnull) false) :=
  c8_mutation_amended.2.2.2.1 5 [idB] (by decide) (by decide)

/-- C10: the walk is deterministic. The engine is a pure function of the
schema registry, the visitor map, the fuel and the tree: structurally
equal inputs give the same hook invocation sequence (the trace component)
and the same final tree. -/
theorem c10_deterministic (defs : Defs) (vis : Visitors) (fuel : Nat)
    (key : Option String) (slot : Slot) (t1 t2 : JVal) (h : t1 = t2) :
    traverse defs vis fuel t1 key slot = traverse defs vis fuel t2 key slot ∧
    runTraverse defs vis fuel t1 = runTraverse defs vis fuel t2 := by
  rw [h]
  exact ⟨rfl, rfl⟩

/-- Witness for C10 on scenario A. -/
theorem c10_deterministic_witness :
    traverse astDefinitionsMap visA 10 treeA none .root =
      traverse astDefinitionsMap visA 10 treeA none .root ∧
    runTraverse astDefinitionsMap visA 10 treeA = runTraverse astDefinitionsMap visA 10 treeA :=
  c10_deterministic astDefinitionsMap visA 10 none .root treeA treeA rfl
